import Mathlib

/-!
Verification development for the FinanciaTracker backend.

The definitions below are a shallow embedding of the transaction-parsing
service (backend/src/services/aiService.js) and of the analytics route
handlers (backend/src/routes/transactions.js).  JavaScript strings are
modelled as Lean strings (the inputs involved are ASCII), JavaScript
numbers as rationals, and JavaScript Date values as integer millisecond
timestamps since the Unix epoch, with the local time zone taken to be UTC
and daylight-saving shifts ignored.
-/

namespace FinTrack

/-- Lower-case a string character by character, as String.prototype.toLowerCase
does on ASCII input. -/
def strLower (s : String) : String := ⟨s.data.map Char.toLower⟩

/-- Substring containment test, as String.prototype.includes: true when
needle occurs contiguously inside hay (the empty needle always matches). -/
def containsSub (needle hay : String) : Bool :=
  hay.data.tails.any (fun t => needle.data.isPrefixOf t)

/-- The fixed category taxonomy COMMON_CATEGORIES of aiService.js, in its
declared order. -/
def COMMON_CATEGORIES : List String :=
  ["Food & Dining", "Gas & Fuel", "Groceries", "Shopping", "Entertainment",
   "Bills & Utilities", "Travel", "Healthcare", "Education", "Transportation",
   "Salary", "Freelance", "Investment", "Business", "Gift", "Other"]

/-- Income trigger keywords of simpleParseTransaction. -/
def incomeKeywords : List String :=
  ["salary", "income", "received", "deposit", "bonus", "wage", "paycheck", "freelance"]

/-- The categoryKeywords table of simpleParseTransaction, in the order the
object literal declares its keys (which Object.entries preserves). -/
def categoryKeywords : List (String × List String) :=
  [("Food & Dining",
    ["restaurant", "dining", "food", "lunch", "dinner", "breakfast", "cafe",
     "coffee", "pizza", "burger", "mcdonald", "kfc", "subway", "starbucks",
     "domino", "delivery"]),
   ("Gas & Fuel",
    ["gas", "fuel", "petrol", "diesel", "shell", "bp", "exxon", "chevron", "station"]),
   ("Groceries",
    ["grocery", "supermarket", "walmart", "target", "costco", "kroger",
     "safeway", "market", "food shopping"]),
   ("Shopping",
    ["amazon", "shopping", "store", "retail", "clothing", "electronics",
     "mall", "online", "purchase"]),
   ("Entertainment",
    ["movie", "netflix", "spotify", "gaming", "steam", "entertainment",
     "subscription", "streaming", "concert", "theater"]),
   ("Bills & Utilities",
    ["electric", "electricity", "water", "internet", "phone", "utility",
     "bill", "cable", "mobile"]),
   ("Travel",
    ["hotel", "flight", "airplane", "vacation", "travel", "booking",
     "airbnb", "uber", "taxi"]),
   ("Transportation",
    ["uber", "taxi", "bus", "train", "metro", "transport", "parking", "toll"]),
   ("Healthcare",
    ["doctor", "medical", "pharmacy", "hospital", "health", "medicine", "clinic"]),
   ("Education",
    ["course", "education", "book", "tuition", "school", "university", "training"])]

/-- Category detection of simpleParseTransaction: scan the keyword table in
its declared order and return the first category one of whose keywords occurs
in the lower-cased text; default "Other". -/
def simpleParseCategory (text : String) : String :=
  let lowerText := strLower text
  match categoryKeywords.find? (fun p => p.2.any (fun k => containsSub k lowerText)) with
  | some p => p.1
  | none => "Other"

/-- Numeric value of a digit run, as parseFloat reads the integer part. -/
def digitsToNat (cs : List Char) : ℕ :=
  cs.foldl (fun a c => 10 * a + (c.toNat - 48)) 0

/-- Value of the regex group match starting at a digit: the maximal digit run,
then a fractional part only when a dot followed by two further digits comes
immediately after (the pattern is backslash-dot followed by a digit pair, so a
one-digit fraction is dropped and of a longer fraction only two digits are
kept). -/
def readAmount (cs : List Char) : ℚ :=
  let run := cs.takeWhile Char.isDigit
  let rest := cs.dropWhile Char.isDigit
  let intPart : ℚ := (digitsToNat run : ℚ)
  match rest with
  | '.' :: d1 :: d2 :: _ =>
    if d1.isDigit && d2.isDigit then
      intPart + ((10 * (d1.toNat - 48) + (d2.toNat - 48) : ℕ) : ℚ) / 100
    else intPart
  | _ => intPart

/-- First match of the amount regex of simpleParseTransaction: the scan looks
for the first digit (an optional currency glyph before it does not change the
captured group) and reads the number there; none when the text has no digit. -/
def firstAmount : List Char → Option ℚ
  | [] => none
  | c :: rest => if c.isDigit then some (readAmount (c :: rest)) else firstAmount rest

/-- Result shape of the parsing service. -/
structure ParsedTransaction where
  amount : ℚ
  description : String
  category : String
  type : String
  date : String
deriving DecidableEq, Repr

/-- The fallback parser simpleParseTransaction of aiService.js.  The current
date that JavaScript renders with toISOString is passed in as today. -/
def simpleParseTransaction (text : String) (today : String) : ParsedTransaction :=
  let amount := (firstAmount text.data).getD 0
  let lowerText := strLower text
  let ty := if incomeKeywords.any (fun k => containsSub k lowerText) then "income" else "expense"
  let category := simpleParseCategory text
  { amount := amount
    description := text.take 100
    category := category
    type := ty
    date := today }

/-- Leap-year test of the Gregorian calendar. -/
def isLeapYear (y : ℕ) : Bool :=
  (y % 4 == 0 && y % 100 != 0) || y % 400 == 0

/-- Number of days of a civil month (m between 1 and 12). -/
def daysInMonth (y m : ℕ) : ℕ :=
  if m = 2 then (if isLeapYear y then 29 else 28)
  else if m = 4 ∨ m = 6 ∨ m = 9 ∨ m = 11 then 30
  else 31

/-- The isValidDate helper of aiService.js: the string must have the shape
of four digits, a dash, two digits, a dash and two digits, and the Date
constructor must accept it, which for such an ISO string means the month is
between 01 and 12 and the day exists in that month. -/
def isValidDate (s : String) : Bool :=
  match s.data with
  | [y1, y2, y3, y4, '-', mo1, mo2, '-', d1, d2] =>
    if ([y1, y2, y3, y4, mo1, mo2, d1, d2].all Char.isDigit) then
      let y := digitsToNat [y1, y2, y3, y4]
      let m := digitsToNat [mo1, mo2]
      let d := digitsToNat [d1, d2]
      1 ≤ m && m ≤ 12 && 1 ≤ d && d ≤ daysInMonth y m
    else false
  | _ => false

/-- Category validation of enhanceTransaction in aiService.js: an exact
(and truthy, hence non-empty) taxonomy member is kept; otherwise one scan of
the taxonomy accepts the first entry equal to the candidate case-insensitively
or related to it by substring in either direction; otherwise the category is
taken from fallback keyword parsing of the original input text.  An absent
candidate skips both matching steps (the case-insensitive comparisons against
an absent value are all false, no lower-cased taxonomy entry containing the
text undefined) and lands in the fallback branch. -/
def normalizeCategory (candidate : Option String) (originalText : String) : String :=
  match candidate with
  | none => simpleParseCategory originalText
  | some c =>
    if c ≠ "" ∧ c ∈ COMMON_CATEGORIES then c
    else
      let lc := strLower c
      match COMMON_CATEGORIES.find? (fun cat =>
          strLower cat = lc || containsSub lc (strLower cat) || containsSub (strLower cat) lc) with
      | some m => m
      | none => simpleParseCategory originalText

/-- The JSON object returned by the model, as enhanceTransaction reads it:
each field may be absent; the amount is recorded as its numeric value when
parseFloat accepts it and as none when parseFloat yields NaN. -/
structure RawTx where
  amount : Option ℚ
  description : Option String
  category : Option String
  type : Option String
  date : Option String

/-- The enhanceTransaction validator of aiService.js. -/
def enhanceTransaction (tx : RawTx) (originalText today : String) : ParsedTransaction :=
  { amount := (tx.amount.map (fun q => |q|)).getD 0
    description :=
      match tx.description with
      | some s => if s = "" then originalText.take 100 else s
      | none => originalText.take 100
    category := normalizeCategory tx.category originalText
    type :=
      match tx.type with
      | some t => if t = "income" || t = "expense" then t else "expense"
      | none => "expense"
    date :=
      match tx.date with
      | some ds => if isValidDate ds then ds else today
      | none => today }

/-- Observable outcome of the call to the external model: the request may
throw (network error, model unavailable, or any exception inside the try
block), the cleaned response text may fail JSON.parse, or it parses to an
object.  A JSON value without the expected fields is the parsed case with
those fields absent. -/
inductive GeminiOutcome where
  | apiError
  | badJson
  | parsed (data : RawTx)

/-- The parseTransactionWithAI operation of aiService.js.  Its JavaScript
return value is untyped, so the codomain allows an array of transactions as
the route handler anticipates; every return statement of the source produces
a single object literal. -/
def parseTransactionWithAI (configured : Bool) (outcome : GeminiOutcome)
    (text today : String) : ParsedTransaction ⊕ List ParsedTransaction :=
  if !configured then Sum.inl (simpleParseTransaction text today)
  else
    match outcome with
    | .apiError => Sum.inl (simpleParseTransaction text today)
    | .badJson => Sum.inl (simpleParseTransaction text today)
    | .parsed data => Sum.inl (enhanceTransaction data text today)

/-- Success payload of POST /api/transactions/parse. -/
structure ParseResponse where
  success : Bool
  isMultiple : Bool
  parsedTransactions : List ParsedTransaction
  originalText : String
  count : ℕ
deriving DecidableEq

/-- The POST /api/transactions/parse handler of routes/transactions.js,
applied to the value the parsing service returned: Array.isArray decides
between the multiple and the single shape. -/
def parseRoute (result : ParsedTransaction ⊕ List ParsedTransaction)
    (text : String) : ParseResponse :=
  match result with
  | Sum.inl t =>
    { success := true, isMultiple := false, parsedTransactions := [t]
      originalText := text, count := 1 }
  | Sum.inr ts =>
    { success := true, isMultiple := true, parsedTransactions := ts
      originalText := text, count := ts.length }

/-- Well-formedness of a parsed transaction, as the spec promises it: the
type is one of the two literals, the category is a taxonomy member and the
amount is not negative. -/
def WellFormedTx (p : ParsedTransaction) : Prop :=
  (p.type = "income" ∨ p.type = "expense") ∧
    p.category ∈ COMMON_CATEGORIES ∧ 0 ≤ p.amount

/-- Well-formedness of the parsing service's untyped result. -/
def ResultWellFormed : ParsedTransaction ⊕ List ParsedTransaction → Prop
  | Sum.inl t => WellFormedTx t
  | Sum.inr ts => ∀ t ∈ ts, WellFormedTx t


def scanCats (kw : String → List String) (lowerText : String) : List String → String
  | [] => "Other"
  | c :: rest =>
    if (kw c).any (fun k => containsSub k lowerText) then c
    else scanCats kw lowerText rest

def kwOf (c : String) : List String := (categoryKeywords.lookup c).getD []

def specCategoryTaxonomyOrder (text : String) : String :=
  scanCats kwOf (strLower text) COMMON_CATEGORIES

def specAmountExactTwo (t : String) : ℚ :=
  match t.data.findIdx? Char.isDigit with
  | none => 0
  | some i => readAmount (t.data.drop i)


def readAmountUpTo2 (cs : List Char) : ℚ :=
  let run := cs.takeWhile Char.isDigit
  let rest := cs.dropWhile Char.isDigit
  let frac : List Char :=
    match rest with
    | '.' :: ds => (ds.takeWhile Char.isDigit).take 2
    | _ => []
  mkRat (digitsToNat run * 10 ^ frac.length + digitsToNat frac) (10 ^ frac.length)

def firstAmountUpTo2 : List Char → Option ℚ
  | [] => none
  | c :: rest => if c.isDigit then some (readAmountUpTo2 (c :: rest)) else firstAmountUpTo2 rest

def specAmountUpToTwo (t : String) : ℚ := (firstAmountUpTo2 t.data).getD 0

/-!
Model of the JavaScript Date values the analytics routes manipulate.  A Date
is its millisecond timestamp since the Unix epoch (an integer), the local
time zone is taken to be UTC and daylight-saving shifts are ignored.  The
civil-calendar conversions implement the proleptic Gregorian calendar that
the ECMAScript specification prescribes, via the standard era-based
algorithm; sOf, ys, nxt and yChk are auxiliary quantities used to verify the
year-extraction step of that algorithm over one 400-year era.
-/

def sOf (a : ℕ) : ℕ := a - a / 1460 + a / 36524 - a / 146096

def ys (b : ℕ) : ℕ := 365 * b + b / 4 - b / 100

def nxt (b : ℕ) : ℕ := if b = 399 then 146097 else ys (b + 1)

def yChk : ℕ → Bool
  | 0 => true
  | b + 1 => (sOf (ys b) / 365 == b) && (sOf (nxt b - 1) / 365 == b) && yChk b

def daysFromCivil (y m d : ℤ) : ℤ :=
  let y2 := if m ≤ 2 then y - 1 else y
  let era := y2 / 400
  let yoe := y2 - era * 400
  let mp := if 2 < m then m - 3 else m + 9
  let doy := (153 * mp + 2) / 5 + d - 1
  let doe := yoe * 365 + yoe / 4 - yoe / 100 + doy
  era * 146097 + doe - 719468

def civilFromDays (z : ℤ) : ℤ × ℤ × ℤ :=
  let z2 := z + 719468
  let era := z2 / 146097
  let doe := z2 % 146097
  let yoe := (doe - doe / 1460 + doe / 36524 - doe / 146096) / 365
  let y := yoe + era * 400
  let doy := doe - (365 * yoe + yoe / 4 - yoe / 100)
  let mp := (5 * doy + 2) / 153
  let d := doy - (153 * mp + 2) / 5 + 1
  let m := if mp < 10 then mp + 3 else mp - 9
  (if m ≤ 2 then y + 1 else y, m, d)


def jsDayOf (t : ℤ) : ℤ := t / 86400000

def jsTimeOfDay (t : ℤ) : ℤ := t % 86400000

def jsGetFullYear (t : ℤ) : ℤ := (civilFromDays (jsDayOf t)).1

def jsGetMonth (t : ℤ) : ℤ := (civilFromDays (jsDayOf t)).2.1 - 1

def jsGetDate (t : ℤ) : ℤ := (civilFromDays (jsDayOf t)).2.2

def jsMakeDay (y m d : ℤ) : ℤ :=
  daysFromCivil (y + m / 12) (m % 12 + 1) 1 + (d - 1)

def jsNewDateYMD (y m d : ℤ) : ℤ := jsMakeDay y m d * 86400000

def jsSetDate (t n : ℤ) : ℤ :=
  jsMakeDay (jsGetFullYear t) (jsGetMonth t) n * 86400000 + jsTimeOfDay t

def jsSetMonth (t m : ℤ) : ℤ :=
  jsMakeDay (jsGetFullYear t) m (jsGetDate t) * 86400000 + jsTimeOfDay t

def jsSetFullYear (t y : ℤ) : ℤ :=
  jsMakeDay y (jsGetMonth t) (jsGetDate t) * 86400000 + jsTimeOfDay t


inductive Period where
  | week
  | month
  | year
  | all
deriving DecidableEq

structure DateFilter where
  lo : Option ℤ
  hi : Option ℤ
deriving DecidableEq

def summaryDateFilter (now : ℤ) : Period → DateFilter
  | .week => ⟨some (jsSetDate now (jsGetDate now - 7)), none⟩
  | .month => ⟨some (jsNewDateYMD (jsGetFullYear now) (jsGetMonth now) 1), none⟩
  | .year => ⟨some (jsNewDateYMD (jsGetFullYear now) 0 1), none⟩
  | .all => ⟨none, none⟩

def categoriesDateFilter (now : ℤ) : Period → DateFilter
  | .week => ⟨some (jsSetDate now (jsGetDate now - 7)), none⟩
  | .month => ⟨some (jsNewDateYMD (jsGetFullYear now) (jsGetMonth now) 1), none⟩
  | .year => ⟨some (jsNewDateYMD (jsGetFullYear now) 0 1), none⟩
  | .all => ⟨none, none⟩

def trendsDateFilter (now : ℤ) : Period → DateFilter
  | .week => ⟨some (jsSetDate now (jsGetDate now - 7)), none⟩
  | .month => ⟨some (jsSetMonth now (jsGetMonth now - 1)), none⟩
  | _ => ⟨some (jsSetFullYear now (jsGetFullYear now - 1)), none⟩

def specDateWindow (now : ℤ) : Period → DateFilter
  | .week => ⟨some (now - 7 * 86400000), none⟩
  | .month => ⟨some (daysFromCivil (jsGetFullYear now) (jsGetMonth now + 1) 1 * 86400000), none⟩
  | .year => ⟨some (daysFromCivil (jsGetFullYear now) 1 1 * 86400000), none⟩
  | .all => ⟨none, none⟩


structure TxRec where
  date : ℤ
  type : String
  amount : ℚ
deriving DecidableEq

def matchesFilter (f : DateFilter) (d : ℤ) : Bool :=
  (match f.lo with
   | some lo => decide (lo ≤ d)
   | none => true) &&
  (match f.hi with
   | some hi => decide (d ≤ hi)
   | none => true)

def sumAmounts (txs : List TxRec) (ty : String) (f : DateFilter) : ℚ :=
  ((txs.filter (fun tx => tx.type == ty && matchesFilter f tx.date)).map TxRec.amount).sum

def countTx (txs : List TxRec) (ty : String) (f : DateFilter) : ℕ :=
  (txs.filter (fun tx => tx.type == ty && matchesFilter f tx.date)).length

def summaryPrevFilter (now : ℤ) (p : Period) : DateFilter :=
  if p = Period.month then
    ⟨some (jsNewDateYMD (jsGetFullYear now) (jsGetMonth now - 1) 1),
     some (jsNewDateYMD (jsGetFullYear now) (jsGetMonth now) 0)⟩
  else ⟨none, none⟩

def toFixed1 (x : ℚ) : ℚ := (⌊x * 10 + 1 / 2⌋ : ℚ) / 10

structure SummaryResult where
  totalIncome : ℚ
  totalExpenses : ℚ
  netIncome : ℚ
  incomeCount : ℕ
  expenseCount : ℕ
  averageIncome : ℚ
  averageExpense : ℚ
  incomeChange : Option ℚ
  expenseChange : Option ℚ
deriving DecidableEq

def getSummary (now : ℤ) (p : Period) (txs : List TxRec) : SummaryResult :=
  let f := summaryDateFilter now p
  let totalIncome := sumAmounts txs "income" f
  let totalExpenses := sumAmounts txs "expense" f
  let incomeCount := countTx txs "income" f
  let expenseCount := countTx txs "expense" f
  let pf := summaryPrevFilter now p
  let previousIncome := sumAmounts txs "income" pf
  let previousExpenses := sumAmounts txs "expense" pf
  { totalIncome := totalIncome
    totalExpenses := totalExpenses
    netIncome := totalIncome - totalExpenses
    incomeCount := incomeCount
    expenseCount := expenseCount
    averageIncome := if incomeCount = 0 then 0 else totalIncome / incomeCount
    averageExpense := if expenseCount = 0 then 0 else totalExpenses / expenseCount
    incomeChange :=
      if 0 < previousIncome then
        some (toFixed1 ((totalIncome - previousIncome) / previousIncome * 100))
      else none
    expenseChange :=
      if 0 < previousExpenses then
        some (toFixed1 ((totalExpenses - previousExpenses) / previousExpenses * 100))
      else none }

def specPrevMonthLo (now : ℤ) : ℤ :=
  if jsGetMonth now = 0 then daysFromCivil (jsGetFullYear now - 1) 12 1 * 86400000
  else daysFromCivil (jsGetFullYear now) (jsGetMonth now) 1 * 86400000

def specPrevMonthHi (now : ℤ) : ℤ :=
  daysFromCivil (jsGetFullYear now) (jsGetMonth now + 1) 1 * 86400000 - 86400000

def allTimeTotal (txs : List TxRec) (ty : String) : ℚ :=
  ((txs.filter (fun tx => tx.type == ty)).map TxRec.amount).sum

def specDelta (cur prev : ℚ) : Option ℚ :=
  if 0 < prev then some (toFixed1 ((cur - prev) / prev * 100)) else none

/-!
Model of PUT /api/transactions/:id in routes/transactions.js.  The handler
runs findOneAndUpdate with the filter on the path id and the authenticated
user, and as update document the whole spread request body (express
validates listed fields but strips none, so a userId key in the body is
part of the update; the mongoose schema declares userId without an
immutable marker, so the update writes it).  Identifiers are modelled as
naturals.
-/


structure TxDoc where
  txId : ℕ
  userId : ℕ
  description : String
  amount : ℚ
  type : String
  category : String
  date : ℤ
  notes : Option String
  tags : List String
deriving DecidableEq

structure UpdateBody where
  userId : Option ℕ
  description : Option String
  amount : Option ℚ
  type : Option String
  category : Option String
  date : Option ℤ
  notes : Option String
  tags : Option (List String)

def applyBody (doc : TxDoc) (body : UpdateBody) : TxDoc :=
  { txId := doc.txId
    userId := body.userId.getD doc.userId
    description := body.description.getD doc.description
    amount := body.amount.getD doc.amount
    type := body.type.getD doc.type
    category := body.category.getD doc.category
    date := body.date.getD doc.date
    notes := match body.notes with
      | some n => some n
      | none => doc.notes
    tags := body.tags.getD doc.tags }

def putTransaction (authUserId tid : ℕ) (body : UpdateBody) (store : List TxDoc) :
    Option TxDoc × List TxDoc :=
  match store.find? (fun d => d.txId == tid && d.userId == authUserId) with
  | none => (none, store)
  | some d =>
    let d2 := applyBody d body
    (some d2, store.map (fun e => if e.txId == tid && e.userId == authUserId then d2 else e))

/-! Supporting lemmas about the parser. -/

theorem simpleParseCategory_mem (t : String) : simpleParseCategory t ∈ COMMON_CATEGORIES := by
  have hall : ∀ p ∈ categoryKeywords, p.1 ∈ COMMON_CATEGORIES := by decide
  simp only [simpleParseCategory]
  split
  · next p hp => exact hall p (List.mem_of_find?_eq_some hp)
  · decide

theorem normalizeCategory_mem (c : Option String) (t : String) :
    normalizeCategory c t ∈ COMMON_CATEGORIES := by
  cases c with
  | none => exact simpleParseCategory_mem t
  | some s =>
    simp only [normalizeCategory]
    split
    · next hc => exact hc.2
    · split
      · next m hm => exact List.mem_of_find?_eq_some hm
      · exact simpleParseCategory_mem t

theorem normalizeCategory_idem (c : Option String) (t : String) :
    normalizeCategory (some (normalizeCategory c t)) t = normalizeCategory c t := by
  have hmem := normalizeCategory_mem c t
  have hne : normalizeCategory c t ≠ "" := by
    have hx : ∀ x ∈ COMMON_CATEGORIES, x ≠ "" := by decide
    exact hx _ hmem
  generalize normalizeCategory c t = y at *
  simp only [normalizeCategory]
  rw [if_pos ⟨hne, hmem⟩]

theorem readAmount_nonneg (cs : List Char) : 0 ≤ readAmount cs := by
  simp only [readAmount]
  split
  · split
    · positivity
    · positivity
  · positivity

theorem firstAmount_nonneg (cs : List Char) (q : ℚ) (h : firstAmount cs = some q) : 0 ≤ q := by
  induction cs with
  | nil => simp [firstAmount] at h
  | cons c rest ih =>
    rw [firstAmount] at h
    by_cases hc : c.isDigit
    · rw [if_pos hc] at h
      obtain rfl : readAmount (c :: rest) = q := by simpa using h
      exact readAmount_nonneg _
    · rw [if_neg hc] at h
      exact ih h

theorem simpleParse_wellFormed (t d : String) : WellFormedTx (simpleParseTransaction t d) := by
  refine ⟨?_, simpleParseCategory_mem t, ?_⟩
  · simp only [simpleParseTransaction]
    split
    · exact Or.inl rfl
    · exact Or.inr rfl
  · simp only [simpleParseTransaction]
    cases h : firstAmount t.data with
    | none => simp
    | some q => simpa using firstAmount_nonneg _ _ h

theorem enhance_wellFormed (tx : RawTx) (t d : String) :
    WellFormedTx (enhanceTransaction tx t d) := by
  refine ⟨?_, normalizeCategory_mem tx.category t, ?_⟩
  · simp only [enhanceTransaction]
    cases tx.type with
    | none => exact Or.inr rfl
    | some s =>
      simp only []
      split
      · next h =>
        rcases Bool.or_eq_true_iff.mp h with h1 | h1
        · exact Or.inl (of_decide_eq_true h1)
        · exact Or.inr (of_decide_eq_true h1)
      · exact Or.inr rfl
  · simp only [enhanceTransaction]
    cases tx.amount with
    | none => simp
    | some q => simp

theorem scan_table (lt : String) (l : List (String × List String))
    (hl : ∀ p ∈ l, kwOf p.1 = p.2) :
    (match l.find? (fun p => p.2.any (fun k => containsSub k lt)) with
     | some p => p.1
     | none => "Other") = scanCats kwOf lt (l.map Prod.fst) := by
  induction l with
  | nil => rfl
  | cons p rest ih =>
    have hp : kwOf p.1 = p.2 := hl p (List.mem_cons_self p rest)
    have hrest := ih (fun q hq => hl q (List.mem_cons_of_mem p hq))
    by_cases hc : (p.2.any (fun k => containsSub k lt)) = true
    · simp only [List.find?_cons, List.map_cons, scanCats, hp, hc, if_true]
    · have hcf : (p.2.any (fun k => containsSub k lt)) = false := by simpa using hc
      simp only [List.find?_cons, List.map_cons, scanCats, hp, hcf]
      simpa using hrest

theorem simpleParseCategory_eq_tableScan (t : String) :
    simpleParseCategory t = scanCats kwOf (strLower t) (categoryKeywords.map Prod.fst) := by
  have h := scan_table (strLower t) categoryKeywords (by decide)
  simpa [simpleParseCategory] using h

theorem firstAmount_eq_findIdx (cs : List Char) :
    firstAmount cs = (cs.findIdx? Char.isDigit).map (fun i => readAmount (cs.drop i)) := by
  induction cs with
  | nil => rfl
  | cons c rest ih =>
    rw [firstAmount, List.findIdx?_cons]
    by_cases hc : c.isDigit
    · simp [hc]
    · rw [if_neg hc, if_neg hc, ih]
      rw [show (0 : ℕ) + 1 = 0 + 1 from rfl, List.findIdx?_succ, Option.map_map]
      cases h : rest.findIdx? Char.isDigit with
      | none => rfl
      | some v => rfl

theorem firstAmount_of_no_digit (cs : List Char) (h : ∀ c ∈ cs, c.isDigit = false) :
    firstAmount cs = none := by
  induction cs with
  | nil => rfl
  | cons c rest ih =>
    rw [firstAmount, if_neg (by simp [h c (List.mem_cons_self c rest)])]
    exact ih (fun x hx => h x (List.mem_cons_of_mem c hx))

/-- Claim C5, counterexample: the spec says that a candidate matching no
taxonomy entry normalizes to Other, but the code falls back to keyword
parsing of the original text, which for the text lunch yields Food & Dining
rather than Other. -/
theorem C5_counterexample :
    normalizeCategory (some "zzz") "lunch" = "Food & Dining" ∧
      normalizeCategory (some "zzz") "lunch" ≠ "Other" := by decide

/-- Claim C5, amended: category normalization always lands in the taxonomy,
is idempotent, keeps an exact non-empty taxonomy match, and when neither the
exact nor the case-insensitive and substring scan matches it returns the
fallback keyword category of the original input text instead of Other. -/
theorem C5_amended :
    (∀ c t, normalizeCategory c t ∈ COMMON_CATEGORIES) ∧
    (∀ c t, normalizeCategory (some (normalizeCategory c t)) t = normalizeCategory c t) ∧
    (∀ c t, c ∈ COMMON_CATEGORIES → c ≠ "" → normalizeCategory (some c) t = c) ∧
    (∀ c t, COMMON_CATEGORIES.find? (fun cat =>
        strLower cat = strLower c || containsSub (strLower c) (strLower cat) ||
          containsSub (strLower cat) (strLower c)) = none →
      normalizeCategory (some c) t = simpleParseCategory t) := by
  refine ⟨normalizeCategory_mem, normalizeCategory_idem, ?_, ?_⟩
  · intro c t hmem hne
    simp only [normalizeCategory]
    rw [if_pos ⟨hne, hmem⟩]
  · intro c t h
    have hcond : ¬(c ≠ "" ∧ c ∈ COMMON_CATEGORIES) := by
      rintro ⟨hne, hmem⟩
      have hp := List.find?_eq_none.mp h c hmem
      simp at hp
    simp only [normalizeCategory]
    rw [if_neg hcond, h]

/-- Witness for C5_amended at concrete inputs. -/
theorem C5_amended_witness :
    normalizeCategory (some "Travel") "abc" = "Travel" ∧
      normalizeCategory (some "zzz") "abc" = simpleParseCategory "abc" :=
  ⟨C5_amended.2.2.1 "Travel" "abc" (by decide) (by decide),
   C5_amended.2.2.2 "zzz" "abc" (by decide)⟩

/-- Claim C6, counterexample: the fallback parser scans the keyword table in
the order that table declares (with Transportation before Healthcare), not in
the taxonomy's declared order (Healthcare before Transportation), and the two
orders disagree on the text bus to hospital. -/
theorem C6_counterexample :
    (simpleParseTransaction "bus to hospital" "2025-01-01").category = "Transportation" ∧
      specCategoryTaxonomyOrder "bus to hospital" = "Healthcare" ∧
      (simpleParseTransaction "bus to hospital" "2025-01-01").category ≠
        specCategoryTaxonomyOrder "bus to hospital" := by decide

/-- Claim C6, amended: the fallback category is the first hit scanning the
keyword table in the table's own declared order, it is always a taxonomy
member, and it is Other when no keyword of any category occurs in the
lower-cased text. -/
theorem C6_amended :
    (∀ t d, (simpleParseTransaction t d).category =
        scanCats kwOf (strLower t) (categoryKeywords.map Prod.fst)) ∧
    (∀ t d, (simpleParseTransaction t d).category ∈ COMMON_CATEGORIES) ∧
    (∀ t d, (∀ p ∈ categoryKeywords, ∀ k ∈ p.2, containsSub k (strLower t) = false) →
      (simpleParseTransaction t d).category = "Other") := by
  have hcat : ∀ t d, (simpleParseTransaction t d).category = simpleParseCategory t :=
    fun t d => rfl
  refine ⟨?_, ?_, ?_⟩
  · intro t d
    rw [hcat, simpleParseCategory_eq_tableScan]
  · intro t d
    rw [hcat]
    exact simpleParseCategory_mem t
  · intro t d h
    rw [hcat]
    have hfind : categoryKeywords.find?
        (fun p => p.2.any (fun k => containsSub k (strLower t))) = none := by
      apply List.find?_eq_none.mpr
      intro p hp
      simp only [List.any_eq_true, not_exists]
      push_neg
      intro k hk
      simp [h p hp k hk]
    simp only [simpleParseCategory, hfind]

/-- Witness for C6_amended at a concrete input with no keyword hit. -/
theorem C6_amended_witness :
    (simpleParseTransaction "qq" "d").category = "Other" :=
  C6_amended.2.2 "qq" "d" (by decide)

/-- Claim C7, counterexample: the amount regex accepts a decimal fraction of
exactly two digits, not of up to two digits; on the text coffee 3.5 the
claimed rule would produce 7/2 while the code produces 3. -/
theorem C7_counterexample :
    (simpleParseTransaction "coffee 3.5" "2025-01-01").amount = 3 ∧
      specAmountUpToTwo "coffee 3.5" = mkRat 7 2 ∧
      (simpleParseTransaction "coffee 3.5" "2025-01-01").amount ≠
        specAmountUpToTwo "coffee 3.5" := by decide

/-- Claim C7, amended: the fallback amount is the value at the first digit
of the text, taking the maximal digit run and a following fraction only when
it has at least two digits (of which exactly two are kept), and it is 0 when
the text contains no digit. -/
theorem C7_amended :
    (∀ t d, (simpleParseTransaction t d).amount = specAmountExactTwo t) ∧
    (∀ t d, (∀ c ∈ t.data, c.isDigit = false) → (simpleParseTransaction t d).amount = 0) := by
  have hamt : ∀ t d, (simpleParseTransaction t d).amount = (firstAmount t.data).getD 0 :=
    fun t d => rfl
  constructor
  · intro t d
    rw [hamt, firstAmount_eq_findIdx]
    simp only [specAmountExactTwo]
    cases t.data.findIdx? Char.isDigit with
    | none => rfl
    | some i => rfl
  · intro t d h
    rw [hamt, firstAmount_of_no_digit t.data h]
    rfl

/-- Witness for C7_amended at a digit-free concrete input. -/
theorem C7_amended_witness :
    (simpleParseTransaction "abc" "d").amount = 0 :=
  C7_amended.2 "abc" "d" (by decide)

/-- Claim C8, counterexample: on the input Salary deposit 3000 dollars the
fallback parser returns category Other, not Salary, because the keyword table
contains no income category at all. -/
theorem C8_counterexample :
    (simpleParseTransaction "Salary deposit $3000" "2025-01-01").category = "Other" ∧
      ¬ (simpleParseTransaction "Salary deposit $3000" "2025-01-01").category = "Salary" := by
  decide

set_option maxRecDepth 4000 in
/-- Claim C8, amended: the fallback parser applied to the text Salary
deposit 3000 dollars returns type income and amount 3000 as claimed, but
category Other. -/
theorem C8_amended (d : String) :
    simpleParseTransaction "Salary deposit $3000" d =
      { amount := 3000, description := "Salary deposit $3000", category := "Other",
        type := "income", date := d } := rfl

/-- Claim C1: parseTransactionWithAI returns a well-formed parsed
transaction for every configuration and model outcome, and with no
credential configured its result is exactly the fallback parser's result on
the same text. -/
theorem C1_thm :
    (∀ cfg outcome text today, ResultWellFormed (parseTransactionWithAI cfg outcome text today)) ∧
    (∀ outcome text today,
      parseTransactionWithAI false outcome text today =
        Sum.inl (simpleParseTransaction text today)) := by
  constructor
  · intro cfg outcome text today
    cases cfg with
    | false => exact simpleParse_wellFormed text today
    | true =>
      cases outcome with
      | apiError => exact simpleParse_wellFormed text today
      | badJson => exact simpleParse_wellFormed text today
      | parsed data => exact enhance_wellFormed data text today
  · intro outcome text today
    rfl

/-- Claim C10: the response of POST /api/transactions/parse always carries
exactly one parsed transaction: isMultiple is false, the list has length one
and count is one, because every return path of the parsing service produces
a single object. -/
theorem C10_thm :
    ∀ cfg outcome text today,
      (parseRoute (parseTransactionWithAI cfg outcome text today) text).isMultiple = false ∧
      (parseRoute (parseTransactionWithAI cfg outcome text today) text).parsedTransactions.length = 1 ∧
      (parseRoute (parseTransactionWithAI cfg outcome text today) text).count = 1 := by
  intro cfg outcome text today
  cases cfg <;> cases outcome <;> exact ⟨rfl, rfl, rfl⟩

/-! Lemmas about the calendar model. -/

set_option maxRecDepth 4000 in

theorem yChk_400 : yChk 400 = true := by decide

theorem sOf_step (a : ℕ) : sOf a ≤ sOf (a + 1) := by
  unfold sOf
  omega

theorem sOf_mono (a1 a2 : ℕ) (h : a1 ≤ a2) : sOf a1 ≤ sOf a2 := by
  induction a2 with
  | zero =>
    obtain rfl : a1 = 0 := Nat.le_zero.mp h
    exact le_refl _
  | succ n ih =>
    rcases Nat.lt_or_ge a1 (n + 1) with h2 | h2
    · exact le_trans (ih (Nat.lt_succ_iff.mp h2)) (sOf_step n)
    · have he : a1 = n + 1 := le_antisymm h h2
      subst he
      exact le_refl _

theorem yChk_facts (N : ℕ) (hN : yChk N = true) :
    ∀ b, b < N → sOf (ys b) / 365 = b ∧ sOf (nxt b - 1) / 365 = b := by
  induction N with
  | zero => intro b hb; omega
  | succ n ih =>
    intro b hb
    rw [yChk] at hN
    simp only [Bool.and_eq_true, beq_iff_eq] at hN
    obtain ⟨⟨h1, h2⟩, h3⟩ := hN
    rcases Nat.lt_succ_iff_lt_or_eq.mp hb with hlt | rfl
    · exact ih h3 b hlt
    · exact ⟨h1, h2⟩

theorem cover (a : ℕ) (ha : a < 146097) : ∃ b, b < 400 ∧ ys b ≤ a ∧ a < nxt b := by
  have hP0 : ys 0 ≤ a := by simp [ys]
  have hb399 : Nat.findGreatest (fun b => ys b ≤ a) 399 ≤ 399 := Nat.findGreatest_le 399
  have hPb : ys (Nat.findGreatest (fun b => ys b ≤ a) 399) ≤ a :=
    @Nat.findGreatest_spec 0 (fun b => ys b ≤ a) _ 399 (Nat.zero_le 399) hP0
  refine ⟨Nat.findGreatest (fun b => ys b ≤ a) 399, by omega, hPb, ?_⟩
  by_cases hb : Nat.findGreatest (fun b => ys b ≤ a) 399 = 399
  · rw [hb]
    simp only [nxt, if_pos rfl]
    exact ha
  · have hgt : ¬ ys (Nat.findGreatest (fun b => ys b ≤ a) 399 + 1) ≤ a :=
      @Nat.findGreatest_is_greatest (Nat.findGreatest (fun b => ys b ≤ a) 399 + 1)
        (fun b => ys b ≤ a) _ 399 (Nat.lt_succ_self _) (by omega)
    simp only [nxt, if_neg hb]
    omega

theorem era_facts (a : ℕ) (ha : a < 146097) :
    ys (sOf a / 365) ≤ a ∧ a ≤ ys (sOf a / 365) + 365 ∧ sOf a / 365 ≤ 399 := by
  obtain ⟨b, hb400, hlo, hhi⟩ := cover a ha
  obtain ⟨h1, h2⟩ := yChk_facts 400 yChk_400 b hb400
  have hle1 : b ≤ sOf a / 365 := by
    rw [← h1]
    exact Nat.div_le_div_right (sOf_mono _ _ hlo)
  have hle2 : sOf a / 365 ≤ b := by
    rw [← h2]
    refine Nat.div_le_div_right (sOf_mono _ _ ?_)
    omega
  have hbeq : sOf a / 365 = b := le_antisymm hle2 hle1
  rw [hbeq]
  refine ⟨hlo, ?_, by omega⟩
  by_cases hb : b = 399
  · subst hb
    have : nxt 399 = 146097 := by simp [nxt]
    simp only [ys] at hlo ⊢
    omega
  · have : nxt b = ys (b + 1) := by simp [nxt, hb]
    simp only [ys] at hlo hhi ⊢
    rw [this] at hhi
    simp only [ys] at hhi
    omega

theorem era_facts_int (doe : ℤ) (h0 : 0 ≤ doe) (h1 : doe < 146097) :
    0 ≤ (doe - doe / 1460 + doe / 36524 - doe / 146096) / 365 ∧
    (doe - doe / 1460 + doe / 36524 - doe / 146096) / 365 ≤ 399 ∧
    365 * ((doe - doe / 1460 + doe / 36524 - doe / 146096) / 365) +
        ((doe - doe / 1460 + doe / 36524 - doe / 146096) / 365) / 4 -
        ((doe - doe / 1460 + doe / 36524 - doe / 146096) / 365) / 100 ≤ doe ∧
    doe ≤ 365 * ((doe - doe / 1460 + doe / 36524 - doe / 146096) / 365) +
        ((doe - doe / 1460 + doe / 36524 - doe / 146096) / 365) / 4 -
        ((doe - doe / 1460 + doe / 36524 - doe / 146096) / 365) / 100 + 365 := by
  have hA : ((doe.toNat : ℕ) : ℤ) = doe := Int.toNat_of_nonneg h0
  obtain ⟨hf1, hf2, hf3⟩ := era_facts doe.toNat (by omega)
  have hsOf : ((sOf doe.toNat : ℕ) : ℤ) = doe - doe / 1460 + doe / 36524 - doe / 146096 := by
    unfold sOf
    omega
  have hq : ((sOf doe.toNat / 365 : ℕ) : ℤ) =
      (doe - doe / 1460 + doe / 36524 - doe / 146096) / 365 := by
    omega
  have hys : ((ys (sOf doe.toNat / 365) : ℕ) : ℤ) =
      365 * ((sOf doe.toNat / 365 : ℕ) : ℤ) + ((sOf doe.toNat / 365 : ℕ) : ℤ) / 4 -
        ((sOf doe.toNat / 365 : ℕ) : ℤ) / 100 := by
    unfold ys
    omega
  have hf1Z : ((ys (sOf doe.toNat / 365) : ℕ) : ℤ) ≤ ((doe.toNat : ℕ) : ℤ) := by
    exact_mod_cast hf1
  have hf2Z : ((doe.toNat : ℕ) : ℤ) ≤ ((ys (sOf doe.toNat / 365) : ℕ) : ℤ) + 365 := by
    exact_mod_cast hf2
  have hf3Z : ((sOf doe.toNat / 365 : ℕ) : ℤ) ≤ 399 := by exact_mod_cast hf3
  rw [hys] at hf1Z hf2Z
  rw [hA] at hf1Z hf2Z
  rw [hq] at hf1Z hf2Z hf3Z
  refine ⟨?_, hf3Z, ?_, ?_⟩
  · rw [← hq]
    positivity
  · omega
  · omega

theorem civilFromDays_month_range (z : ℤ) :
    1 ≤ (civilFromDays z).2.1 ∧ (civilFromDays z).2.1 ≤ 12 := by
  have h0 : (0 : ℤ) ≤ (z + 719468) % 146097 := Int.emod_nonneg _ (by norm_num)
  have h1 : (z + 719468) % 146097 < 146097 := Int.emod_lt_of_pos _ (by norm_num)
  obtain ⟨e0, e1, e2, e3⟩ := era_facts_int ((z + 719468) % 146097) h0 h1
  simp only [civilFromDays]
  split_ifs <;> omega

theorem daysFromCivil_civilFromDays (z : ℤ) :
    daysFromCivil (civilFromDays z).1 (civilFromDays z).2.1 (civilFromDays z).2.2 = z := by
  have h0 : (0 : ℤ) ≤ (z + 719468) % 146097 := Int.emod_nonneg _ (by norm_num)
  have h1 : (z + 719468) % 146097 < 146097 := Int.emod_lt_of_pos _ (by norm_num)
  have hzdecomp : 146097 * ((z + 719468) / 146097) + (z + 719468) % 146097 = z + 719468 :=
    Int.ediv_add_emod _ _
  obtain ⟨e0, e1, e2, e3⟩ := era_facts_int ((z + 719468) % 146097) h0 h1
  simp only [civilFromDays, daysFromCivil]
  set era := (z + 719468) / 146097 with hera
  set doe := (z + 719468) % 146097 with hdoe
  set yoe := (doe - doe / 1460 + doe / 36524 - doe / 146096) / 365 with hyoe
  set doy := doe - (365 * yoe + yoe / 4 - yoe / 100) with hdoy
  set mp := (5 * doy + 2) / 153 with hmp
  have hk : (yoe + era * 400) / 400 = era := by omega
  split_ifs <;> simp only [add_sub_cancel_right, sub_add_cancel, hk] <;> omega

theorem daysFromCivil_linear_day (y m d : ℤ) :
    daysFromCivil y m d = daysFromCivil y m 1 + (d - 1) := by
  simp only [daysFromCivil]
  split_ifs <;> ring

theorem jsMonth_range (t : ℤ) : 0 ≤ jsGetMonth t ∧ jsGetMonth t ≤ 11 := by
  have h := civilFromDays_month_range (jsDayOf t)
  unfold jsGetMonth
  omega

theorem jsMakeDay_self (t : ℤ) (n : ℤ) :
    jsMakeDay (jsGetFullYear t) (jsGetMonth t) n = jsDayOf t + (n - jsGetDate t) := by
  have hm := jsMonth_range t
  have hdiv : jsGetMonth t / 12 = 0 := by omega
  have hmod : jsGetMonth t % 12 = jsGetMonth t := by omega
  unfold jsMakeDay
  rw [hdiv, hmod, add_zero]
  have hround := daysFromCivil_civilFromDays (jsDayOf t)
  rw [daysFromCivil_linear_day] at hround
  unfold jsGetFullYear jsGetMonth jsGetDate
  have : (civilFromDays (jsDayOf t)).2.1 - 1 + 1 = (civilFromDays (jsDayOf t)).2.1 := by ring
  rw [this]
  omega

theorem jsSetDate_shift (t n : ℤ) : jsSetDate t n = t + (n - jsGetDate t) * 86400000 := by
  unfold jsSetDate
  rw [jsMakeDay_self]
  have hdm : 86400000 * (t / 86400000) + t % 86400000 = t := Int.ediv_add_emod _ _
  unfold jsDayOf jsTimeOfDay
  ring_nf
  omega

theorem jsSetDate_week (t : ℤ) : jsSetDate t (jsGetDate t - 7) = t - 7 * 86400000 := by
  rw [jsSetDate_shift]
  ring

theorem summary_week_spec (now : ℤ) :
    summaryDateFilter now .week = specDateWindow now .week := by
  simp only [summaryDateFilter, specDateWindow, jsSetDate_week]

theorem summary_month_spec (now : ℤ) :
    summaryDateFilter now .month = specDateWindow now .month := by
  have hm := jsMonth_range now
  have hdiv : jsGetMonth now / 12 = 0 := by omega
  have hmod : jsGetMonth now % 12 = jsGetMonth now := by omega
  simp only [summaryDateFilter, specDateWindow, jsNewDateYMD, jsMakeDay, hdiv, hmod, add_zero]
  ring_nf

theorem summary_year_spec (now : ℤ) :
    summaryDateFilter now .year = specDateWindow now .year := by
  simp only [summaryDateFilter, specDateWindow, jsNewDateYMD, jsMakeDay]
  norm_num

theorem summary_eq_spec (now : ℤ) (p : Period) :
    summaryDateFilter now p = specDateWindow now p := by
  cases p with
  | week => exact summary_week_spec now
  | month => exact summary_month_spec now
  | year => exact summary_year_spec now
  | all => rfl

theorem prevLo_eq (now : ℤ) :
    jsNewDateYMD (jsGetFullYear now) (jsGetMonth now - 1) 1 = specPrevMonthLo now := by
  have hm := jsMonth_range now
  by_cases h0 : jsGetMonth now = 0
  · simp only [jsNewDateYMD, jsMakeDay, specPrevMonthLo, if_pos h0, h0]
    norm_num
    have hy : jsGetFullYear now + -1 = jsGetFullYear now - 1 := by ring
    rw [hy]
  · have hdiv : (jsGetMonth now - 1) / 12 = 0 := by omega
    have hmod : (jsGetMonth now - 1) % 12 = jsGetMonth now - 1 := by omega
    simp only [jsNewDateYMD, jsMakeDay, specPrevMonthLo, if_neg h0, hdiv, hmod, add_zero]
    ring_nf

theorem prevHi_eq (now : ℤ) :
    jsNewDateYMD (jsGetFullYear now) (jsGetMonth now) 0 = specPrevMonthHi now := by
  have hm := jsMonth_range now
  have hdiv : jsGetMonth now / 12 = 0 := by omega
  have hmod : jsGetMonth now % 12 = jsGetMonth now := by omega
  simp only [jsNewDateYMD, jsMakeDay, specPrevMonthHi, hdiv, hmod, add_zero]
  ring

theorem sumAmounts_nofilter (txs : List TxRec) (ty : String) :
    sumAmounts txs ty ⟨none, none⟩ = allTimeTotal txs ty := by
  simp [sumAmounts, allTimeTotal, matchesFilter]

/-- Claim C2, counterexample: at a concrete instant the trends handler's
month window (one calendar month back from now) and year window (one year
back from now) differ from the summary handler's windows (first of the
current month, January 1st), while the summary handler does follow the
spec's rule there; so the three analytics reads do not share one
date-window resolution rule. -/
theorem C2_counterexample :
    trendsDateFilter 1760000000000 Period.month ≠ summaryDateFilter 1760000000000 Period.month ∧
    trendsDateFilter 1760000000000 Period.year ≠ summaryDateFilter 1760000000000 Period.year ∧
    summaryDateFilter 1760000000000 Period.month = specDateWindow 1760000000000 Period.month := by
  decide

/-- Claim C2, amended: getSummary and getCategories resolve their default
date windows by the same rule, the one the spec states (week is the last 7
days from now, month is month-to-date from the 1st, year is year-to-date
from January 1st, all is unbounded); getTrends agrees only on week and
instead uses rolling windows, one calendar month back and one year back
from now, and accepts no all period at all (its validator admits only week,
month and year, and its switch treats anything else as year). -/
theorem C2_amended :
    (∀ now p, categoriesDateFilter now p = summaryDateFilter now p) ∧
    (∀ now p, summaryDateFilter now p = specDateWindow now p) ∧
    (∀ now, trendsDateFilter now Period.week = specDateWindow now Period.week) ∧
    (∀ now, trendsDateFilter now Period.month =
      ⟨some (jsSetMonth now (jsGetMonth now - 1)), none⟩) ∧
    (∀ now, trendsDateFilter now Period.year =
      ⟨some (jsSetFullYear now (jsGetFullYear now - 1)), none⟩) := by
  refine ⟨?_, summary_eq_spec, ?_, fun now => rfl, fun now => rfl⟩
  · intro now p
    cases p <;> rfl
  · intro now
    simp only [trendsDateFilter, specDateWindow, jsSetDate_week]

/-- Claim C4: whenever the previous-window income (respectively expense)
total is zero, getSummary reports incomeChange (respectively expenseChange)
as absent, never zero, infinite or undefined. -/
theorem C4_thm (now : ℤ) (p : Period) (txs : List TxRec) :
    (sumAmounts txs "income" (summaryPrevFilter now p) = 0 →
      (getSummary now p txs).incomeChange = none) ∧
    (sumAmounts txs "expense" (summaryPrevFilter now p) = 0 →
      (getSummary now p txs).expenseChange = none) := by
  constructor <;> intro h <;> simp [getSummary, h]

/-- Witness for C4_thm on an empty transaction list. -/
theorem C4_witness :
    (getSummary 0 Period.week []).incomeChange = none ∧
      (getSummary 0 Period.week []).expenseChange = none :=
  ⟨(C4_thm 0 Period.week []).1 rfl, (C4_thm 0 Period.week []).2 rfl⟩

/-- Claim C3, amended: for period month the comparison window is the
immediately preceding calendar month (from midnight on its 1st through
midnight on its last day) and the deltas are the rounded percentage
changes against that window; for every other period the comparison
aggregation runs with an empty filter, so the deltas are still computed,
against the all-time totals of the owner, whenever those are positive. -/
theorem C3_amended :
    (∀ now txs,
      (getSummary now Period.month txs).incomeChange =
        specDelta (sumAmounts txs "income" (specDateWindow now Period.month))
          (sumAmounts txs "income" ⟨some (specPrevMonthLo now), some (specPrevMonthHi now)⟩) ∧
      (getSummary now Period.month txs).expenseChange =
        specDelta (sumAmounts txs "expense" (specDateWindow now Period.month))
          (sumAmounts txs "expense" ⟨some (specPrevMonthLo now), some (specPrevMonthHi now)⟩)) ∧
    (∀ now p txs, p ≠ Period.month →
      (getSummary now p txs).incomeChange =
        specDelta (sumAmounts txs "income" (summaryDateFilter now p)) (allTimeTotal txs "income") ∧
      (getSummary now p txs).expenseChange =
        specDelta (sumAmounts txs "expense" (summaryDateFilter now p))
          (allTimeTotal txs "expense")) := by
  constructor
  · intro now txs
    have hprev : summaryPrevFilter now Period.month =
        ⟨some (specPrevMonthLo now), some (specPrevMonthHi now)⟩ := by
      simp [summaryPrevFilter, prevLo_eq, prevHi_eq]
    constructor <;>
      simp only [getSummary, specDelta, hprev, summary_eq_spec]
  · intro now p txs hp
    have hprev : summaryPrevFilter now p = ⟨none, none⟩ := by
      simp only [summaryPrevFilter, if_neg hp]
    constructor <;>
      simp only [getSummary, specDelta, hprev, sumAmounts_nofilter]

/-- Witness for C3_amended at a concrete non-month period. -/
theorem C3_amended_witness :
    (getSummary 0 Period.week []).incomeChange =
      specDelta (sumAmounts [] "income" (summaryDateFilter 0 Period.week))
        (allTimeTotal [] "income") ∧
    (getSummary 0 Period.week []).expenseChange =
      specDelta (sumAmounts [] "expense" (summaryDateFilter 0 Period.week))
        (allTimeTotal [] "expense") :=
  C3_amended.2 0 Period.week [] (by decide)

/-- Claim C3, counterexample: with period week and one old income
transaction, the previous-period aggregation has no date filter, sums the
whole history, and a delta of minus one hundred percent is reported even
though the period is not month, where the claim says no delta is
computed. -/
theorem C3_counterexample :
    (getSummary 1760000000000 Period.week [⟨0, "income", 100⟩]).incomeChange = some (-100) ∧
      (getSummary 1760000000000 Period.week [⟨0, "income", 100⟩]).incomeChange ≠ none := by
  have hfilt : matchesFilter (summaryDateFilter 1760000000000 Period.week) 0 = false := by
    decide
  have hcur : sumAmounts [⟨0, "income", 100⟩] "income"
      (summaryDateFilter 1760000000000 Period.week) = 0 := by
    simp [sumAmounts, hfilt]
  have hprev : sumAmounts [⟨0, "income", 100⟩] "income"
      (summaryPrevFilter 1760000000000 Period.week) = 100 := by
    simp [sumAmounts, summaryPrevFilter, matchesFilter]
  have hfix : toFixed1 ((0 - 100) / 100 * 100) = -100 := by
    have h1 : ((0 : ℚ) - 100) / 100 * 100 = -100 := by norm_num
    rw [h1]
    unfold toFixed1
    have h2 : ⌊(-100 : ℚ) * 10 + 1 / 2⌋ = -1000 := by
      rw [Int.floor_eq_iff]
      constructor <;> norm_num
    rw [h2]
    norm_num
  constructor
  · simp only [getSummary, hcur, hprev]
    rw [if_pos (by norm_num : (0 : ℚ) < 100)]
    rw [hfix]
  · simp only [getSummary, hcur, hprev]
    rw [if_pos (by norm_num : (0 : ℚ) < 100)]
    simp

/-- Helper: a request body without a userId key leaves the stored owner
unchanged. -/
theorem applyBody_userId_of_absent (body : UpdateBody) (hb : body.userId = none)
    (d : TxDoc) : (applyBody d body).userId = d.userId := by
  simp [applyBody, hb]

/-- Claim C9, code evaluation: a PUT request by the owning user 42 on
transaction 1 whose body carries userId 99 stores the transaction with
userId 99, transferring ownership, against the spec's immutability of the
owner; a body without a userId key leaves the owner at 42. -/
theorem C9_owner_overwritten :
    ((putTransaction 42 1
        ⟨some 99, none, none, none, none, none, none, none⟩
        [⟨1, 42, "groceries", 5, "expense", "Groceries", 0, none, []⟩]).1.map TxDoc.userId) =
      some 99 ∧
    (99 : ℕ) ≠ 42 ∧
    ((putTransaction 42 1
        ⟨none, some "food", none, none, none, none, none, none⟩
        [⟨1, 42, "groceries", 5, "expense", "Groceries", 0, none, []⟩]).1.map TxDoc.userId) =
      some 42 := by
  refine ⟨by decide, by decide, by decide⟩

end FinTrack
